import Mathlib

/-!
kiwi: update scheduler and output-port connections.

A shallow embedding of

* `ProcessingPipelineUpdater::update`
  (`cpp/src/kiwi/processing/ProcessingPipelineUpdater.cpp`),
* `OutputPort` (`cpp/src/kiwi/core/OutputPort.cpp`), and
* `DataPort::subPort`, `DataPort::nbSubPorts` and
  `DataPort::safeDownCastContainer` (`src/kiwi/core/DataPort.hpp`),

followed by theorems about them.

Pointers are identities: a `Node*`, `InputPort*`, `OutputPort*` or `DataPort*`
is a natural number.  A loop that the source may run for ever takes a fuel argument that
bounds the number of iterations of its body; running out of fuel is an outcome
of its own, never a result.
-/

set_option linter.unusedVariables false

namespace kiwi

/-- How a run of an embedded function ends. -/
inductive Outcome (σ : Type) (α : Type) where
  /-- The function returned `a`. -/
  | returned (a : α)
  /-- The iteration bound was reached in loop state `s`, the loop still running. -/
  | outOfFuel (s : σ)
  /-- An array was read outside its bounds in loop state `s`. -/
  | outOfBounds (s : σ)
  /-- An `assert` failed, or a null pointer was dereferenced, in state `s`. -/
  | failed (s : σ)
  deriving DecidableEq, Repr

/-- The state in which a loop was left, however it ended. -/
def Outcome.last {σ : Type} : Outcome σ σ → σ
  | .returned s => s
  | .outOfFuel s => s
  | .outOfBounds s => s
  | .failed s => s

namespace processing

/-- A `Node*`. -/
abbrev Node := Nat

/-- The part of `Pipeline` and `Node` that `ProcessingPipelineUpdater::update`
reads: `nodes()`, the node array, and `previousNodes()` of each node. -/
structure Pipeline where
  nodes : List Node
  previousNodes : Node → List Node

/-- The local variables of `update` while its loop runs, and the calls of
`Node::update` made so far, oldest first. -/
structure UpdaterState where
  toUpdate : List Node
  i : Nat
  updated : List Node
  deriving DecidableEq, Repr

/-- The inner `for` loop (lines 23-31): walks `dependencies` and stops with
`true` at the first element equal to `n`. -/
def foundDependency (n : Node) : List Node → Bool
  | [] => false
  | d :: rest => if n = d then true else foundDependency n rest

/-- One iteration of the body of the `while` loop (lines 20-43); `none` when
the read `toUpdate[i]` is out of bounds.  The `int i` stays between `0` and
`toUpdate.size()`, so it is a natural number here.

The statement `toUpdate[i] == toUpdate[toUpdate.size()-1];` of line 36 is a
comparison whose value is dropped: it changes nothing.  `resize(size()-1)`
removes the last element. -/
def iteration (p : Pipeline) (s : UpdaterState) : Option UpdaterState :=
  match s.toUpdate[s.i]? with
  | none => none
  | some n =>
    let s1 : UpdaterState :=
      if !foundDependency n (p.previousNodes n) then
        { toUpdate := s.toUpdate.dropLast, i := s.i, updated := s.updated ++ [n] }
      else
        { toUpdate := s.toUpdate, i := s.i + 1, updated := s.updated }
    some (if s1.i ≥ s1.toUpdate.length then { s1 with i := 0 } else s1)

/-- The `while( toUpdate.size() > 0 )` loop (lines 18-44), at most `fuel`
iterations of its body. -/
def updateLoop (p : Pipeline) : Nat → UpdaterState → Outcome UpdaterState UpdaterState
  | fuel, s =>
    if s.toUpdate.length > 0 then
      match fuel with
      | 0 => .outOfFuel s
      | fuel + 1 =>
        match iteration p s with
        | none => .outOfBounds s
        | some s1 => updateLoop p fuel s1
    else .returned s

/-- `ProcessingPipelineUpdater::update( Pipeline* p, uint32 flags )`: the value
returned and the sequence of `Node::update` calls. -/
def update (p : Pipeline) (flags : Nat) (fuel : Nat) :
    Outcome UpdaterState (Bool × List Node) :=
  match updateLoop p fuel { toUpdate := p.nodes, i := 0, updated := [] } with
  | .returned s => .returned (false, s.updated)
  | .outOfFuel s => .outOfFuel s
  | .outOfBounds s => .outOfBounds s
  | .failed s => .failed s

/-- The calls of `Node::update` made in a run of `update`, however it ends. -/
def callsMade : Outcome UpdaterState (Bool × List Node) → List Node
  | .returned r => r.2
  | .outOfFuel s => s.updated
  | .outOfBounds s => s.updated
  | .failed s => s.updated

/-- The dependency edge `a -> b`: `a` is a member of `b.previousNodes()`. -/
def Edge (p : Pipeline) (a b : Node) : Prop := a ∈ p.previousNodes b

/-- Node `n` lies on a cycle of the dependency relation. -/
def OnCycle (p : Pipeline) (n : Node) : Prop := Relation.TransGen (Edge p) n n

/-- The dependency relation of the pipeline has no cycle. -/
def Acyclic (p : Pipeline) : Prop := ∀ n, ¬ OnCycle p n

/-- Two nodes `A = 0`, `B = 1` without dependencies, node array `[A, B]`. -/
def twoIndependent : Pipeline :=
  { nodes := [0, 1], previousNodes := fun _ => [] }

/-- Nodes `A = 0`, `B = 1` with `B.previousNodes() = {A}`, node array `[B, A]`. -/
def dependentFirst : Pipeline :=
  { nodes := [1, 0], previousNodes := fun n => if n = 1 then [0] else [] }

/-- Nodes `A = 0`, `B = 1`, `C = 2`, node array `[A, B, C]`, with
`B.previousNodes() = {A}` and `C.previousNodes() = {B}`. -/
def chainABC : Pipeline :=
  { nodes := [0, 1, 2],
    previousNodes := fun n => if n = 1 then [0] else if n = 2 then [1] else [] }

/-- Nodes `X = 0`, `Y = 1` with `X` in `Y.previousNodes()` and `Y` in
`X.previousNodes()`, node array `[X, Y]`. -/
def mutualXY : Pipeline :=
  { nodes := [0, 1], previousNodes := fun n => if n = 0 then [1] else if n = 1 then [0] else [] }

/-- One node `X = 0` that is its own predecessor. -/
def selfLoop : Pipeline :=
  { nodes := [0], previousNodes := fun _ => [0] }

/-- Node array `[A, X]` with `A = 0` free of dependencies and `X = 1` its own
predecessor. -/
def freeThenSelf : Pipeline :=
  { nodes := [0, 1], previousNodes := fun n => if n = 1 then [1] else [] }

/-- The loop states at which the `while` condition of `update` is tested: the
state set up by lines 15-17, and every state that one iteration of the body
leads to from such a state in which the loop is entered. -/
inductive Reachable (p : Pipeline) : UpdaterState → Prop where
  | init : Reachable p { toUpdate := p.nodes, i := 0, updated := [] }
  | step (s s1 : UpdaterState) : Reachable p s → s.toUpdate.length > 0 →
      iteration p s = some s1 → Reachable p s1

end processing

namespace core

/-- An `OutputPort*`. -/
abbrev OutputPort := Nat

/-- An `InputPort*`. -/
abbrev InputPort := Nat

/-- A `Data*` that is not null. -/
abbrev Data := Nat

/-- A `const DataTypeInfo*` that is not null. -/
abbrev DataTypeInfo := Nat

/-- The connection lists of all ports: `OutputPort::_connections` of every
output port, and for every input port the output ports it lists. -/
structure Wiring where
  _connections : OutputPort → List InputPort
  connectedOutputs : InputPort → List OutputPort

/-- A call of one of the functions of `kiwi::core::protocol`. -/
inductive ProtocolCall where
  | Connect (output : OutputPort) (input : InputPort)
  | Disconnect (output : OutputPort) (input : InputPort)
  deriving DecidableEq, Repr

/-- The state the member functions of `OutputPort` act on: the connection
lists, and the calls of the protocol made so far, oldest first. -/
structure PortState where
  wiring : Wiring
  calls : List ProtocolCall

/-- The type of `kiwi::core::protocol::Connect` and of
`kiwi::core::protocol::Disconnect` (`kiwi/core/Connect.hpp`, not among the
sources): they act on the connection lists and return a number. -/
abbrev ProtocolFn := Wiring → OutputPort → InputPort → Nat × Wiring

/-- Modelled from the spec: `InputPort::isConnectedTo(OutputPort&)`, of
`kiwi/core/InputPort.hpp`, which is not among the sources.  The spec's
`isConnectedTo(port, peer)`: `peer` is in the connection set of `port`. -/
def InputPort.isConnectedTo (w : Wiring) (self : InputPort) (port : OutputPort) : Bool :=
  decide (port ∈ w.connectedOutputs self)

/-- Modelled from the spec: `OutputPort::isConnected()`, of
`kiwi/core/OutputPort.hpp`, which is not among the sources.  The spec's
`isConnected(port)`: the port has at least one peer. -/
def OutputPort.isConnected (w : Wiring) (self : OutputPort) : Bool :=
  decide ((w._connections self).length ≠ 0)

/-- `OutputPort::connect( InputPort& port )` (lines 14-17). -/
def OutputPort.connect (Connect : ProtocolFn) (s : PortState) (self : OutputPort)
    (port : InputPort) : Nat × PortState :=
  let r := Connect s.wiring self port
  (r.1, { wiring := r.2, calls := s.calls ++ [ProtocolCall.Connect self port] })

/-- `OutputPort::disconnect( InputPort& port )` (lines 19-25); `false` is `0`
in the `uint32` it returns. -/
def OutputPort.disconnect (Disconnect : ProtocolFn) (s : PortState) (self : OutputPort)
    (port : InputPort) : Nat × PortState :=
  if InputPort.isConnectedTo s.wiring port self then
    let r := Disconnect s.wiring self port
    (r.1, { wiring := r.2, calls := s.calls ++ [ProtocolCall.Disconnect self port] })
  else
    (0, s)

/-- The `while( _connections.size() != 0 )` loop of `disconnectAll`
(lines 36-39), at most `fuel` iterations of its body. -/
def OutputPort.disconnectAllLoop (Disconnect : ProtocolFn) (self : OutputPort) :
    Nat → PortState → Outcome PortState PortState
  | fuel, s =>
    if (s.wiring._connections self).length ≠ 0 then
      match fuel with
      | 0 => .outOfFuel s
      | fuel + 1 =>
        match (s.wiring._connections self)[(s.wiring._connections self).length - 1]? with
        | none => .outOfBounds s
        | some port =>
          OutputPort.disconnectAllLoop Disconnect self fuel
            (OutputPort.disconnect Disconnect s self port).2
    else .returned s

/-- `OutputPort::disconnectAll()` (lines 32-42): the value returned and the
state left.  A failing `assert( !isConnected() )` is the outcome `failed`. -/
def OutputPort.disconnectAll (Disconnect : ProtocolFn) (s : PortState) (self : OutputPort)
    (fuel : Nat) : Outcome PortState (Bool × PortState) :=
  if !OutputPort.isConnected s.wiring self then .returned (false, s)
  else
    match OutputPort.disconnectAllLoop Disconnect self fuel s with
    | .returned s1 =>
      if !OutputPort.isConnected s1.wiring self then .returned (true, s1) else .failed s1
    | .outOfFuel s1 => .outOfFuel s1
    | .outOfBounds s1 => .outOfBounds s1
    | .failed s1 => .failed s1

/-- `OutputPort::isCompatible(const InputPort& port)` (lines 44-47).
`inputIsCompatible` is `InputPort::isCompatible`, of `kiwi/core/InputPort.hpp`,
which is not among the sources. -/
def OutputPort.isCompatible (inputIsCompatible : InputPort → OutputPort → Bool)
    (self : OutputPort) (port : InputPort) : Bool :=
  inputIsCompatible port self

/-- What `OutputPort` asks of the `DataStrategy` it points to: the values of
its `data()` and `dataType()`, each of which may be null. -/
structure DataStrategy where
  data : Option Data
  dataType : Option DataTypeInfo
  deriving DecidableEq, Repr

/-- Modelled from the spec: `OutputPort::hasDataStrategy()`, of
`kiwi/core/OutputPort.hpp`, which is not among the sources: whether the port
has a strategy attached, that is whether `_dataStrategy` is not null. -/
def OutputPort.hasDataStrategy (_dataStrategy : Option DataStrategy) : Bool :=
  _dataStrategy.isSome

/-- `OutputPort::data()` (lines 49-54), on the port's `_dataStrategy`.
Dereferencing a null `_dataStrategy` is the outcome `failed`. -/
def OutputPort.data (_dataStrategy : Option DataStrategy) : Outcome Unit (Option Data) :=
  if OutputPort.hasDataStrategy _dataStrategy then
    match _dataStrategy with
    | some strategy => .returned strategy.data
    | none => .failed ()
  else .returned none

/-- `OutputPort::dataType()` (lines 56-61), on the port's `_dataStrategy`.
Dereferencing a null `_dataStrategy` is the outcome `failed`. -/
def OutputPort.dataType (_dataStrategy : Option DataStrategy) :
    Outcome Unit (Option DataTypeInfo) :=
  if OutputPort.hasDataStrategy _dataStrategy then
    match _dataStrategy with
    | some strategy => .returned strategy.dataType
    | none => .failed ()
  else .returned none

/-- The data model's invariant on connections: an output port lists an input
port exactly when that input port lists it. -/
def MutuallyConsistent (w : Wiring) : Prop :=
  ∀ (p : OutputPort) (c : InputPort), c ∈ w._connections p ↔ p ∈ w.connectedOutputs c

/-- The contract of the protocol's `Disconnect` on a connected pair: the pair
is removed from both endpoints' connection sets, and every other membership
stays as it was. -/
def RemovesPair (Disconnect : ProtocolFn) : Prop :=
  ∀ (w : Wiring) (p : OutputPort) (c : InputPort),
    c ∈ w._connections p → p ∈ w.connectedOutputs c →
    (∀ p1 c1, c1 ∈ (Disconnect w p c).2._connections p1 ↔
      (c1 ∈ w._connections p1 ∧ ¬ (p1 = p ∧ c1 = c))) ∧
    (∀ p1 c1, p1 ∈ (Disconnect w p c).2.connectedOutputs c1 ↔
      (p1 ∈ w.connectedOutputs c1 ∧ ¬ (p1 = p ∧ c1 = c)))

/-- Modelled from the spec: `kiwi::core::protocol::Disconnect`, of
`kiwi/core/Connect.hpp`, which is not among the sources.  The spec's
`disconnect(producer, consumer)`: "removes the mutual registration if present;
returns whether a connection existed". -/
def protocol.Disconnect : ProtocolFn := fun w output input =>
  if input ∈ w._connections output ∧ output ∈ w.connectedOutputs input then
    (1,
     { _connections := fun p =>
         if p = output then (w._connections p).filter (fun c => c ≠ input)
         else w._connections p,
       connectedOutputs := fun c =>
         if c = input then (w.connectedOutputs c).filter (fun p => p ≠ output)
         else w.connectedOutputs c })
  else (0, w)

/-- Output port `0` connected to the input ports `1` and `2`, and nothing else
connected. -/
def fanOut : Wiring :=
  { _connections := fun p => if p = 0 then [1, 2] else [],
    connectedOutputs := fun c => if c = 1 ∨ c = 2 then [0] else [] }

/-- Modelled from the spec: `kiwi::core::protocol::Connect`, of
`kiwi/core/Connect.hpp`, which is not among the sources.  The spec's
`connect(producer, consumer)`: "succeeds only if `isCompatible(producer,
consumer)` holds.  On success, registers each endpoint in the other's
connection set; fails with `IncompatibleEndpoints` otherwise.  Connecting an
already-connected pair is a no-op success".  Success is `1`, failure `0`; a
connection set holds a peer once. -/
def protocol.Connect (isCompatible : OutputPort → InputPort → Bool) : ProtocolFn :=
  fun w output input =>
    if isCompatible output input then
      (1,
       { _connections := fun p =>
           if p = output ∧ input ∉ w._connections p then w._connections p ++ [input]
           else w._connections p,
         connectedOutputs := fun c =>
           if c = input ∧ output ∉ w.connectedOutputs c then w.connectedOutputs c ++ [output]
           else w.connectedOutputs c })
    else (0, w)

/-- Output port `0` lists input port `1`, which lists nothing: not mutually
consistent. -/
def oneSided : Wiring :=
  { _connections := fun p => if p = 0 then [1] else [],
    connectedOutputs := fun _ => [] }

/-- A `DataPort*`. -/
abbrev DataPort := Nat

/-- A line written to `Debug::error()`. -/
inductive DebugMessage where
  /-- The line "DataPort::subPort: subPort not found!". -/
  | subPortNotFound
  /-- The line "no Container". -/
  | noContainer
  /-- The line "cast failed". -/
  | castFailed
  deriving DecidableEq, Repr

/-- `DataPort::nbSubPorts()` (`DataPort.hpp`, line 105), on the port's
`_subPorts`.  `utils::UnorderedArray` is not among the sources; its `size()`
is the number of elements. -/
def DataPort.nbSubPorts (_subPorts : List DataPort) : Nat :=
  _subPorts.length

/-- `DataPort::subPort(kiwi::uint32_t i)` (`DataPort.hpp`, lines 94-100), on
the port `self` and its `_subPorts`: the port referred to by the result, and
the lines written to `Debug::error()`. -/
def DataPort.subPort (self : DataPort) (_subPorts : List DataPort) (i : Nat) :
    Outcome Unit (DataPort × List DebugMessage) :=
  if i ≥ _subPorts.length then
    .returned (self, [DebugMessage.subPortNotFound])
  else
    match _subPorts[i]? with
    | some sub => .returned (sub, [])
    | none => .outOfBounds ()

end core

end kiwi

namespace kiwi.processing

/-! Theorems on the update scheduler. -/

theorem foundDependency_iff (n : Node) (ds : List Node) :
    foundDependency n ds = true ↔ n ∈ ds := by
  induction ds with
  | nil => simp [foundDependency]
  | cons d rest ih =>
    by_cases h : n = d
    · simp [foundDependency, h]
    · simp [foundDependency, h, ih]

/-- An iteration at index 0 on a first node that is not its own predecessor:
the node is updated, the last element is dropped and the index stays 0. -/
theorem iteration_head_free (p : Pipeline) (a : Node) (rest u : List Node)
    (ha : a ∉ p.previousNodes a) :
    iteration p { toUpdate := a :: rest, i := 0, updated := u } =
      some { toUpdate := (a :: rest).dropLast, i := 0, updated := u ++ [a] } := by
  have hf : foundDependency a (p.previousNodes a) = false := by
    rw [Bool.eq_false_iff]
    intro h
    exact ha ((foundDependency_iff a _).1 h)
  simp [iteration, hf]

/-- With nothing left in `toUpdate` the loop is left at once. -/
theorem updateLoop_nil (p : Pipeline) (fuel i : Nat) (u : List Node) :
    updateLoop p fuel { toUpdate := [], i := i, updated := u } =
      .returned { toUpdate := [], i := i, updated := u } := by
  cases fuel <;> simp [updateLoop]

/-- From index 0 on an array of `rest.length + 1` nodes whose first node is not
its own predecessor, the loop returns after `rest.length + 1` iterations, all
of which update that first node. -/
theorem updateLoop_head_free (p : Pipeline) (a : Node) (ha : a ∉ p.previousNodes a) :
    ∀ (m : Nat) (rest u : List Node) (k : Nat), rest.length = m →
      updateLoop p (m + 1 + k) { toUpdate := a :: rest, i := 0, updated := u } =
        .returned { toUpdate := [], i := 0, updated := u ++ List.replicate (m + 1) a } := by
  intro m
  induction m with
  | zero =>
    intro rest u k hm
    have hr : rest = [] := List.length_eq_zero.1 hm
    subst hr
    rw [show 0 + 1 + k = k + 1 by omega]
    simp [updateLoop, iteration_head_free p a [] u ha, updateLoop_nil]
  | succ m ih =>
    intro rest u k hm
    obtain ⟨b, rest1, hr⟩ : ∃ b rest1, rest = b :: rest1 := by
      cases rest with
      | nil => simp at hm
      | cons b rest1 => exact ⟨b, rest1, rfl⟩
    subst hr
    have hlen : (b :: rest1).dropLast.length = m := by
      simp at hm
      simp [hm]
    rw [show m + 1 + 1 + k = (m + 1 + k) + 1 by omega]
    rw [updateLoop]
    simp only [List.length_cons, gt_iff_lt, Nat.zero_lt_succ, ↓reduceIte]
    rw [iteration_head_free p a (b :: rest1) u ha]
    simp only [List.dropLast_cons₂]
    rw [ih ((b :: rest1).dropLast) (u ++ [a]) k hlen]
    simp [List.replicate_succ]

theorem callsMade_update (p : Pipeline) (flags fuel : Nat) :
    callsMade (update p flags fuel) =
      (updateLoop p fuel { toUpdate := p.nodes, i := 0, updated := [] }).last.updated := by
  unfold update
  cases updateLoop p fuel { toUpdate := p.nodes, i := 0, updated := [] } <;>
    simp [callsMade, Outcome.last]

/-- An iteration only ever appends to the log a node that is not its own
predecessor. -/
theorem iteration_updated (p : Pipeline) (s s1 : UpdaterState)
    (h : iteration p s = some s1)
    (hs : ∀ n ∈ s.updated, n ∉ p.previousNodes n) :
    ∀ n ∈ s1.updated, n ∉ p.previousNodes n := by
  unfold iteration at h
  cases hn : s.toUpdate[s.i]? with
  | none => simp [hn] at h
  | some a =>
    simp only [hn] at h
    cases hf : foundDependency a (p.previousNodes a) with
    | true =>
      simp only [hf, Bool.not_true, Bool.false_eq_true, ↓reduceIte, Option.some.injEq] at h
      subst h
      intro n hn1
      split at hn1 <;> exact hs n hn1
    | false =>
      have ha : a ∉ p.previousNodes a := by
        intro hmem
        rw [(foundDependency_iff a _).2 hmem] at hf
        exact Bool.noConfusion hf
      simp only [hf, Bool.not_false, ↓reduceIte, Option.some.injEq] at h
      subst h
      intro n hn1
      have hn2 : n ∈ s.updated ++ [a] := by
        split at hn1 <;> exact hn1
      rcases List.mem_append.1 hn2 with h1 | h1
      · exact hs n h1
      · rw [List.mem_singleton.1 h1]
        exact ha

/-- However the loop is left, its log holds no node that is its own
predecessor, provided it held none at the start. -/
theorem updateLoop_updated (p : Pipeline) :
    ∀ (fuel : Nat) (s : UpdaterState), (∀ n ∈ s.updated, n ∉ p.previousNodes n) →
      ∀ n ∈ (updateLoop p fuel s).last.updated, n ∉ p.previousNodes n := by
  intro fuel
  induction fuel with
  | zero =>
    intro s hs
    unfold updateLoop
    split <;> simpa [Outcome.last] using hs
  | succ fuel ih =>
    intro s hs
    unfold updateLoop
    split
    · cases hit : iteration p s with
      | none => simpa [Outcome.last] using hs
      | some s1 =>
        simp only
        exact ih s1 (iteration_updated p s s1 hit hs)
    · simpa [Outcome.last] using hs

/-- A dependency relation in which every node's predecessors are smaller than
the node has no cycle. -/
theorem acyclic_of_lt (p : Pipeline) (h : ∀ a b, Edge p a b → a < b) : Acyclic p := by
  have key : ∀ a b, Relation.TransGen (Edge p) a b → a < b := by
    intro a b hab
    induction hab with
    | single hab => exact h _ _ hab
    | tail _ hbc ih => exact Nat.lt_trans ih (h _ _ hbc)
  intro n hn
  exact Nat.lt_irrefl n (key n n hn)

/-- When the first node of the node array is not its own predecessor, `update`
returns after as many iterations as there are nodes, having updated that
first node once per iteration. -/
theorem update_head_free (p : Pipeline) (flags : Nat) (a : Node) (rest : List Node)
    (hp : p.nodes = a :: rest) (ha : a ∉ p.previousNodes a) (k : Nat) :
    update p flags (p.nodes.length + k) =
      .returned (false, List.replicate p.nodes.length a) := by
  unfold update
  rw [hp, List.length_cons, updateLoop_head_free p a ha rest.length rest [] k rfl]
  simp

/-- C1, evaluated on the code.  The pipeline `[A, B]` with no dependencies is
acyclic, and one run of `update` on it returns after two iterations having
called `Node::update` on `A` twice and on `B` not at all. -/
theorem update_twoIndependent (flags k : Nat) :
    Acyclic twoIndependent ∧
    update twoIndependent flags (2 + k) = .returned (false, [0, 0]) ∧
    (callsMade (update twoIndependent flags (2 + k))).count 0 = 2 ∧
    (callsMade (update twoIndependent flags (2 + k))).count 1 = 0 := by
  have hrun : update twoIndependent flags (2 + k) = .returned (false, [0, 0]) :=
    update_head_free twoIndependent flags 0 [1] rfl (by simp [twoIndependent]) k
  refine ⟨?_, hrun, ?_, ?_⟩
  · apply acyclic_of_lt
    intro a b hab
    simp [Edge, twoIndependent] at hab
  · rw [hrun]
    decide
  · rw [hrun]
    decide

/-- C2, evaluated on the code.  In the acyclic pipeline `[B, A]` with the one
edge `A -> B`, the first iteration updates `B` while `A` is still in
`toUpdate`, and the run returns having updated `B` twice and `A` never. -/
theorem update_dependentFirst (flags k : Nat) :
    Acyclic dependentFirst ∧ Edge dependentFirst 0 1 ∧
    iteration dependentFirst { toUpdate := [1, 0], i := 0, updated := [] } =
      some { toUpdate := [1], i := 0, updated := [1] } ∧
    update dependentFirst flags (2 + k) = .returned (false, [1, 1]) := by
  refine ⟨?_, ?_, ?_, ?_⟩
  · apply acyclic_of_lt
    intro a b hab
    simp only [Edge, dependentFirst] at hab
    split at hab
    · rename_i hb
      rw [List.mem_singleton.1 hab, hb]
      exact Nat.zero_lt_one
    · simp at hab
  · simp [Edge, dependentFirst]
  · exact iteration_head_free dependentFirst 1 [0] [] (by simp [dependentFirst])
  · exact update_head_free dependentFirst flags 1 [0] rfl (by simp [dependentFirst]) k

/-- C3, evaluated on the code.  In the pipeline `[X, Y]` where each of `X`,
`Y` is a predecessor of the other, `X` lies on a cycle, and the run returns
after two iterations having called `Node::update` on `X` twice. -/
theorem update_mutualXY_updates_cycle :
    OnCycle mutualXY 0 ∧
    update mutualXY 0 2 = .returned (false, [0, 0]) ∧
    0 ∈ callsMade (update mutualXY 0 2) := by
  have hrun : update mutualXY 0 2 = .returned (false, [0, 0]) :=
    update_head_free mutualXY 0 0 [1] rfl (by simp [mutualXY]) 0
  refine ⟨?_, hrun, ?_⟩
  · have h01 : Edge mutualXY 0 1 := by simp [Edge, mutualXY]
    have h10 : Edge mutualXY 1 0 := by simp [Edge, mutualXY]
    exact Relation.TransGen.tail (Relation.TransGen.single h01) h10
  · rw [hrun]
    simp [callsMade]

/-- C4, evaluated on the code.  On the pipeline of one node that is its own
predecessor the loop never ends: whatever the iteration bound, the run is
still in its initial loop state, with no node updated. -/
theorem update_selfLoop_runs_on (flags fuel : Nat) :
    update selfLoop flags fuel = .outOfFuel { toUpdate := [0], i := 0, updated := [] } := by
  have hit : iteration selfLoop { toUpdate := [0], i := 0, updated := [] } =
      some { toUpdate := [0], i := 0, updated := [] } := by
    simp [iteration, selfLoop, foundDependency]
  have hloop : ∀ fuel, updateLoop selfLoop fuel { toUpdate := [0], i := 0, updated := [] } =
      .outOfFuel { toUpdate := [0], i := 0, updated := [] } := by
    intro fuel
    induction fuel with
    | zero => simp [updateLoop]
    | succ fuel ih =>
      rw [updateLoop]
      simp only [List.length_singleton, gt_iff_lt, Nat.lt_one_iff, ↓reduceIte, hit]
      simpa using ih
  unfold update
  rw [show selfLoop.nodes = [0] from rfl, hloop fuel]

/-- C5, evaluated on the code.  On the pipeline `[A, B, C]` with edges
`A -> B` and `B -> C` the run returns after three iterations and its calls of
`Node::update` are `A, A, A`, not `A, B, C`. -/
theorem update_chainABC (flags k : Nat) :
    update chainABC flags (3 + k) = .returned (false, [0, 0, 0]) ∧
    callsMade (update chainABC flags (3 + k)) ≠ [0, 1, 2] := by
  have hrun : update chainABC flags (3 + k) = .returned (false, [0, 0, 0]) :=
    update_head_free chainABC flags 0 [1, 2] rfl (by simp [chainABC]) k
  refine ⟨hrun, ?_⟩
  rw [hrun]
  decide

end kiwi.processing

namespace kiwi.core

/-! Theorems on output ports. -/

theorem isConnected_eq_false_iff (w : Wiring) (self : OutputPort) :
    OutputPort.isConnected w self = false ↔ w._connections self = [] := by
  simp [OutputPort.isConnected]

/-- The spec's `Disconnect` meets the contract `RemovesPair`. -/
theorem removesPair_Disconnect : RemovesPair protocol.Disconnect := by
  intro w p c hc hp
  have hcond : c ∈ w._connections p ∧ p ∈ w.connectedOutputs c := ⟨hc, hp⟩
  constructor
  · intro p1 c1
    simp only [protocol.Disconnect, hcond, and_self, ↓reduceIte]
    by_cases h1 : p1 = p
    · subst h1
      simp [List.mem_filter]
    · simp [h1]
  · intro p1 c1
    simp only [protocol.Disconnect, hcond, and_self, ↓reduceIte]
    by_cases h1 : c1 = c
    · subst h1
      simp [List.mem_filter]
    · simp [h1]

theorem mutuallyConsistent_fanOut : MutuallyConsistent fanOut := by
  intro p c
  simp only [fanOut]
  by_cases hp : p = 0
  · by_cases hc : c = 1 ∨ c = 2
    · rcases hc with hc | hc <;> simp [hp, hc]
    · have h1 : c ≠ 1 := fun h => hc (Or.inl h)
      have h2 : c ≠ 2 := fun h => hc (Or.inr h)
      simp [hp, hc, h1, h2]
  · by_cases hc : c = 1 ∨ c = 2
    · simp only [hp, hc, ↓reduceIte, List.not_mem_nil, List.mem_singleton]
    · simp [hp, hc]

/-- In a mutually consistent graph, with a `Disconnect` that removes the pair,
the loop of `disconnectAll` returns within as many iterations as the port has
distinct connections, and leaves the port without connections in a graph that
is still mutually consistent. -/
theorem disconnectAllLoop_returns (Disconnect : ProtocolFn) (hD : RemovesPair Disconnect)
    (self : OutputPort) :
    ∀ (fuel : Nat) (s : PortState), MutuallyConsistent s.wiring →
      (s.wiring._connections self).toFinset.card ≤ fuel →
      ∃ s1, OutputPort.disconnectAllLoop Disconnect self fuel s = .returned s1 ∧
        s1.wiring._connections self = [] ∧ MutuallyConsistent s1.wiring := by
  intro fuel
  induction fuel with
  | zero =>
    intro s hs hcard
    have hnil : s.wiring._connections self = [] := by
      have h0 : (s.wiring._connections self).toFinset.card = 0 := Nat.le_zero.1 hcard
      exact List.toFinset_eq_empty_iff _ |>.1 (Finset.card_eq_zero.1 h0)
    refine ⟨s, ?_, hnil, hs⟩
    simp [OutputPort.disconnectAllLoop, hnil]
  | succ fuel ih =>
    intro s hs hcard
    by_cases hlen : (s.wiring._connections self).length ≠ 0
    · have hlt : (s.wiring._connections self).length - 1 < (s.wiring._connections self).length := by
        omega
      have hget : (s.wiring._connections self)[(s.wiring._connections self).length - 1]? =
          some ((s.wiring._connections self)[(s.wiring._connections self).length - 1]) :=
        List.getElem?_eq_getElem hlt
      have hmem : (s.wiring._connections self)[(s.wiring._connections self).length - 1] ∈
          s.wiring._connections self := List.getElem_mem _
      generalize (s.wiring._connections self)[(s.wiring._connections self).length - 1] = c
        at hget hmem
      have hin : self ∈ s.wiring.connectedOutputs c := (hs self c).1 hmem
      have hcon : InputPort.isConnectedTo s.wiring c self = true := by
        simp [InputPort.isConnectedTo, hin]
      obtain ⟨hout, hinp⟩ := hD s.wiring self c hmem hin
      have hstep : (OutputPort.disconnect Disconnect s self c).2.wiring =
          (Disconnect s.wiring self c).2 := by
        simp [OutputPort.disconnect, hcon]
      have hs1 : MutuallyConsistent (OutputPort.disconnect Disconnect s self c).2.wiring := by
        rw [hstep]
        intro p1 c1
        rw [hout p1 c1, hinp p1 c1, hs p1 c1]
      have hsub : ((OutputPort.disconnect Disconnect s self c).2.wiring._connections self).toFinset ⊂
          (s.wiring._connections self).toFinset := by
        rw [hstep, Finset.ssubset_iff_of_subset]
        · refine ⟨c, List.mem_toFinset.2 hmem, ?_⟩
          rw [List.mem_toFinset, hout self c]
          simp
        · intro x hx
          rw [List.mem_toFinset, hout self x] at hx
          exact List.mem_toFinset.2 hx.1
      have hcard1 :
          ((OutputPort.disconnect Disconnect s self c).2.wiring._connections self).toFinset.card
            ≤ fuel := by
        have := Finset.card_lt_card hsub
        omega
      obtain ⟨s1, hrun, hnil, hcons⟩ :=
        ih (OutputPort.disconnect Disconnect s self c).2 hs1 hcard1
      refine ⟨s1, ?_, hnil, hcons⟩
      rw [OutputPort.disconnectAllLoop]
      simp only [hget]
      rw [if_pos hlen]
      exact hrun
    · have hnil : s.wiring._connections self = [] := by
        simpa using hlen
      refine ⟨s, ?_, hnil, hs⟩
      rw [OutputPort.disconnectAllLoop]
      simp [hnil]

/-- A port whose last connection does not report being connected to it: the
pair is not disconnected, and the loop of `disconnectAll` runs on in the same
state. -/
theorem disconnectAll_blocked (Disconnect : ProtocolFn) (s : PortState) (self : OutputPort)
    (port : InputPort)
    (hlast : (s.wiring._connections self).getLast? = some port)
    (hnot : InputPort.isConnectedTo s.wiring port self = false) :
    OutputPort.disconnect Disconnect s self port = (0, s) ∧
    ∀ fuel, OutputPort.disconnectAll Disconnect s self fuel = .outOfFuel s := by
  have hdis : OutputPort.disconnect Disconnect s self port = (0, s) := by
    simp [OutputPort.disconnect, hnot]
  have hne : s.wiring._connections self ≠ [] := by
    intro h
    rw [h] at hlast
    simp at hlast
  have hlen : (s.wiring._connections self).length ≠ 0 := by
    intro h
    exact hne (List.length_eq_zero.1 h)
  have hget : (s.wiring._connections self)[(s.wiring._connections self).length - 1]? =
      some port := by
    rw [← List.getLast?_eq_getElem?]
    exact hlast
  have hloop : ∀ fuel, OutputPort.disconnectAllLoop Disconnect self fuel s = .outOfFuel s := by
    intro fuel
    induction fuel with
    | zero =>
      rw [OutputPort.disconnectAllLoop]
      simp only [if_pos hlen]
    | succ fuel ih =>
      rw [OutputPort.disconnectAllLoop]
      simp only [hget, hdis]
      rw [if_pos hlen]
      exact ih
  refine ⟨hdis, ?_⟩
  intro fuel
  have hcon : OutputPort.isConnected s.wiring self = true := by
    simp [OutputPort.isConnected, hne]
  simp [OutputPort.disconnectAll, hcon, hloop fuel]

/-- C6.  When the input port does not report being connected to the output
port, `disconnect` returns `0` and hands back the state it was given, whatever
the protocol's `Disconnect` is: no call of the protocol is logged and both
ports' connection lists are as before. -/
theorem disconnect_not_connected (Disconnect : ProtocolFn) (s : PortState)
    (self : OutputPort) (port : InputPort)
    (h : InputPort.isConnectedTo s.wiring port self = false) :
    OutputPort.disconnect Disconnect s self port = (0, s) := by
  simp [OutputPort.disconnect, h]

/-- C6 at output port `0` of `fanOut` and input port `3`, which lists no
output port. -/
theorem disconnect_not_connected_witness :
    InputPort.isConnectedTo fanOut 3 0 = false ∧
    OutputPort.disconnect protocol.Disconnect { wiring := fanOut, calls := [] } 0 3 =
      (0, { wiring := fanOut, calls := [] }) :=
  ⟨by decide,
   disconnect_not_connected protocol.Disconnect { wiring := fanOut, calls := [] } 0 3
     (by decide)⟩

/-- C7.  In a mutually consistent graph, with a `Disconnect` that removes the
pair from both endpoints' connection sets, `disconnectAll` on a port with `N`
connections returns within `N` iterations of its loop, the `assert` passing,
and leaves the port with no connection. -/
theorem disconnectAll_terminates (Disconnect : ProtocolFn) (hD : RemovesPair Disconnect)
    (s : PortState) (hs : MutuallyConsistent s.wiring) (self : OutputPort) (k : Nat) :
    ∃ r s1,
      OutputPort.disconnectAll Disconnect s self ((s.wiring._connections self).length + k) =
        .returned (r, s1) ∧
      s1.wiring._connections self = [] ∧ OutputPort.isConnected s1.wiring self = false := by
  by_cases hc : OutputPort.isConnected s.wiring self = true
  · obtain ⟨s1, hrun, hnil, _⟩ :=
      disconnectAllLoop_returns Disconnect hD self
        ((s.wiring._connections self).length + k) s hs
        (Nat.le_trans (List.toFinset_card_le _) (Nat.le_add_right _ _))
    have hc1 : OutputPort.isConnected s1.wiring self = false :=
      (isConnected_eq_false_iff _ _).2 hnil
    refine ⟨true, s1, ?_, hnil, hc1⟩
    simp [OutputPort.disconnectAll, hc, hrun, hc1]
  · have hc0 : OutputPort.isConnected s.wiring self = false := by
      simpa using hc
    refine ⟨false, s, ?_, (isConnected_eq_false_iff _ _).1 hc0, hc0⟩
    simp [OutputPort.disconnectAll, hc0]

/-- C7 at output port `0` of `fanOut`, which has two connections, with the
spec's `Disconnect`. -/
theorem disconnectAll_terminates_witness :
    RemovesPair protocol.Disconnect ∧ MutuallyConsistent fanOut ∧
    ∃ r s1,
      OutputPort.disconnectAll protocol.Disconnect { wiring := fanOut, calls := [] } 0 2 =
        .returned (r, s1) ∧
      s1.wiring._connections 0 = [] ∧ OutputPort.isConnected s1.wiring 0 = false :=
  ⟨removesPair_Disconnect, mutuallyConsistent_fanOut,
   disconnectAll_terminates protocol.Disconnect removesPair_Disconnect
     { wiring := fanOut, calls := [] } mutuallyConsistent_fanOut 0 0⟩

/-- C8, refuted as stated.  Output port `0` of `oneSided` has a connection,
to an input port that does not list it, and `disconnectAll` on it returns
nothing, neither `true` nor `false`, whatever the iteration bound. -/
theorem disconnectAll_oneSided_no_result :
    OutputPort.isConnected oneSided 0 = true ∧
    ¬ ∃ fuel r,
      OutputPort.disconnectAll protocol.Disconnect { wiring := oneSided, calls := [] } 0 fuel =
        .returned r := by
  refine ⟨by decide, ?_⟩
  rintro ⟨fuel, r, hret⟩
  have hrun := (disconnectAll_blocked protocol.Disconnect { wiring := oneSided, calls := [] }
    0 1 rfl (by decide)).2 fuel
  rw [hrun] at hret
  exact Outcome.noConfusion hret

/-- C8, amended.  `disconnectAll` returns whether anything was disconnected.
On a port without connection it returns `false` and the state it was given.
Whenever it returns, the value is `true` exactly when the port had a
connection at the call, and the port is left with none.  On a port with a
connection, in a mutually consistent graph with a `Disconnect` that removes
the pair, it does return, with `true`, and the port is left with no
connection. -/
theorem disconnectAll_result (Disconnect : ProtocolFn) (s : PortState) (self : OutputPort) :
    (OutputPort.isConnected s.wiring self = false →
      ∀ fuel, OutputPort.disconnectAll Disconnect s self fuel = .returned (false, s)) ∧
    (∀ fuel r s1, OutputPort.disconnectAll Disconnect s self fuel = .returned (r, s1) →
      (r = true ↔ OutputPort.isConnected s.wiring self = true) ∧
      s1.wiring._connections self = []) ∧
    (OutputPort.isConnected s.wiring self = true → RemovesPair Disconnect →
      MutuallyConsistent s.wiring →
      ∀ k, ∃ s1,
        OutputPort.disconnectAll Disconnect s self ((s.wiring._connections self).length + k) =
          .returned (true, s1) ∧
        s1.wiring._connections self = []) := by
  refine ⟨?_, ?_, ?_⟩
  · intro hc fuel
    simp [OutputPort.disconnectAll, hc]
  · intro fuel r s1 hret
    cases hc : OutputPort.isConnected s.wiring self with
    | false =>
      simp only [OutputPort.disconnectAll, hc, Bool.not_false, ↓reduceIte,
        Outcome.returned.injEq, Prod.mk.injEq] at hret
      refine ⟨by simp [← hret.1], ?_⟩
      rw [← hret.2]
      exact (isConnected_eq_false_iff _ _).1 hc
    | true =>
      simp only [OutputPort.disconnectAll, hc, Bool.not_true, Bool.false_eq_true,
        ↓reduceIte] at hret
      cases hl : OutputPort.disconnectAllLoop Disconnect self fuel s with
      | returned s2 =>
        simp only [hl] at hret
        split at hret
        · rename_i hc2
          simp only [Outcome.returned.injEq, Prod.mk.injEq] at hret
          refine ⟨by simp [← hret.1], ?_⟩
          rw [← hret.2]
          exact (isConnected_eq_false_iff _ _).1 (by simpa using hc2)
        · exact Outcome.noConfusion hret
      | outOfFuel s2 => simp [hl] at hret
      | outOfBounds s2 => simp [hl] at hret
      | failed s2 => simp [hl] at hret
  · intro hc hD hs k
    obtain ⟨s1, hrun, hnil, _⟩ :=
      disconnectAllLoop_returns Disconnect hD self
        ((s.wiring._connections self).length + k) s hs
        (Nat.le_trans (List.toFinset_card_le _) (Nat.le_add_right _ _))
    have hc1 : OutputPort.isConnected s1.wiring self = false :=
      (isConnected_eq_false_iff _ _).2 hnil
    refine ⟨s1, ?_, hnil⟩
    simp [OutputPort.disconnectAll, hc, hrun, hc1]

/-- The amended C8 on `fanOut`: output port `5` has no connection and gets `false` and
the same state; output port `0` has two and gets `true` and none left. -/
theorem disconnectAll_result_witness :
    (OutputPort.isConnected fanOut 5 = false ∧
      OutputPort.disconnectAll protocol.Disconnect { wiring := fanOut, calls := [] } 5 0 =
        .returned (false, { wiring := fanOut, calls := [] })) ∧
    (OutputPort.isConnected fanOut 0 = true ∧
      ∃ s1, OutputPort.disconnectAll protocol.Disconnect { wiring := fanOut, calls := [] } 0 2 =
          .returned (true, s1) ∧
        s1.wiring._connections 0 = []) :=
  ⟨⟨by decide,
    (disconnectAll_result protocol.Disconnect { wiring := fanOut, calls := [] } 5).1
      (by decide) 0⟩,
   ⟨by decide,
    (disconnectAll_result protocol.Disconnect { wiring := fanOut, calls := [] } 0).2.2
      (by decide) removesPair_Disconnect mutuallyConsistent_fanOut 0⟩⟩

/-- C9.  `OutputPort::isCompatible` on `(P, C)` is the input port's
`isCompatible` on `(C, P)`, whatever that predicate is. -/
theorem isCompatible_symmetric (inputIsCompatible : InputPort → OutputPort → Bool)
    (self : OutputPort) (port : InputPort) :
    OutputPort.isCompatible inputIsCompatible self port = inputIsCompatible port self := by
  rfl

/-- C10.  On a port with no data strategy, `data()` and `dataType()` both
return null, neither failing; on a port with a strategy attached they return
what the strategy's `data()` and `dataType()` return. -/
theorem data_dataType_of_strategy (strategy : DataStrategy) :
    (OutputPort.hasDataStrategy none = false ∧
      OutputPort.data none = .returned none ∧
      OutputPort.dataType none = .returned none) ∧
    (OutputPort.hasDataStrategy (some strategy) = true ∧
      OutputPort.data (some strategy) = .returned strategy.data ∧
      OutputPort.dataType (some strategy) = .returned strategy.dataType) := by
  simp [OutputPort.hasDataStrategy, OutputPort.data, OutputPort.dataType]

/-- C11, refuted as stated.  On a port `7` without sub-ports, index `0` is not
a valid sub-port index, and `subPort(0)` does not fail: it returns the port
`7` itself, after one line on `Debug::error()`. -/
theorem subPort_returns_parent :
    0 ≥ DataPort.nbSubPorts [] ∧
    DataPort.subPort 7 [] 0 = .returned (7, [DebugMessage.subPortNotFound]) := by
  decide

/-- C11, amended.  For every port and every index `i` that is not a valid
sub-port index, `subPort(i)` does not fail: it writes one line to
`Debug::error()` and returns the port itself. -/
theorem subPort_out_of_range (self : DataPort) (_subPorts : List DataPort) (i : Nat)
    (h : i ≥ DataPort.nbSubPorts _subPorts) :
    DataPort.subPort self _subPorts i =
      .returned (self, [DebugMessage.subPortNotFound]) := by
  unfold DataPort.nbSubPorts at h
  simp [DataPort.subPort, h]

/-- The amended C11 on a port `7` with the two sub-ports `8, 9`, at index `2`. -/
theorem subPort_out_of_range_witness :
    2 ≥ DataPort.nbSubPorts [8, 9] ∧
    DataPort.subPort 7 [8, 9] 2 = .returned (7, [DebugMessage.subPortNotFound]) :=
  ⟨by decide, subPort_out_of_range 7 [8, 9] 2 (by decide)⟩

/-- C14.  `subPort(i)` returns the `i`-th element of the sub-port sequence
for every `i < nbSubPorts()`, and the port itself for every other `i`; on a
port without sub-ports it returns the port itself for every `i`.  It never
reads outside `_subPorts`. -/
theorem subPort_spec (self : DataPort) (_subPorts : List DataPort) :
    (∀ i (h : i < _subPorts.length), i < DataPort.nbSubPorts _subPorts ∧
      DataPort.subPort self _subPorts i = .returned (_subPorts[i], [])) ∧
    (∀ i, ¬ i < DataPort.nbSubPorts _subPorts →
      DataPort.subPort self _subPorts i =
        .returned (self, [DebugMessage.subPortNotFound])) ∧
    (DataPort.nbSubPorts _subPorts = 0 →
      ∀ i, DataPort.subPort self _subPorts i =
        .returned (self, [DebugMessage.subPortNotFound])) := by
  refine ⟨?_, ?_, ?_⟩
  · intro i h
    refine ⟨h, ?_⟩
    have hge : ¬ i ≥ _subPorts.length := Nat.not_le.2 h
    simp only [DataPort.subPort, hge, ↓reduceIte, List.getElem?_eq_getElem h]
  · intro i h
    have hge : i ≥ _subPorts.length := Nat.le_of_not_lt h
    simp [DataPort.subPort, hge]
  · intro h0 i
    have hge : i ≥ _subPorts.length := by
      unfold DataPort.nbSubPorts at h0
      omega
    simp [DataPort.subPort, hge]

/-- C14 on a port `7` with the sub-ports `8, 9`, and on a port `7` without
sub-ports. -/
theorem subPort_spec_witness :
    DataPort.subPort 7 [8, 9] 1 = .returned (9, []) ∧
    DataPort.subPort 7 [8, 9] 5 = .returned (7, [DebugMessage.subPortNotFound]) ∧
    DataPort.subPort 7 [] 3 = .returned (7, [DebugMessage.subPortNotFound]) :=
  ⟨((subPort_spec 7 [8, 9]).1 1 (by decide)).2,
   (subPort_spec 7 [8, 9]).2.1 5 (by decide),
   (subPort_spec 7 []).2.2 rfl 3⟩

/-- C13.  For a compatible pair, `connect` succeeds (returns `1`) and
afterwards both endpoints list each other; each endpoint's connection list
grows by exactly one when it did not list the peer, and is unchanged when it
already did. -/
theorem connect_registers_both (inputIsCompatible : InputPort → OutputPort → Bool)
    (s : PortState) (self : OutputPort) (port : InputPort)
    (hcompat : OutputPort.isCompatible inputIsCompatible self port = true) :
    ∃ s1,
      OutputPort.connect (protocol.Connect (OutputPort.isCompatible inputIsCompatible))
        s self port = (1, s1) ∧
      port ∈ s1.wiring._connections self ∧
      InputPort.isConnectedTo s1.wiring port self = true ∧
      (port ∉ s.wiring._connections self →
        (s1.wiring._connections self).length = (s.wiring._connections self).length + 1) ∧
      (self ∉ s.wiring.connectedOutputs port →
        (s1.wiring.connectedOutputs port).length =
          (s.wiring.connectedOutputs port).length + 1) ∧
      (port ∈ s.wiring._connections self →
        s1.wiring._connections self = s.wiring._connections self) ∧
      (self ∈ s.wiring.connectedOutputs port →
        s1.wiring.connectedOutputs port = s.wiring.connectedOutputs port) := by
  refine ⟨(OutputPort.connect (protocol.Connect (OutputPort.isCompatible inputIsCompatible))
    s self port).2, ?_, ?_, ?_, ?_, ?_, ?_, ?_⟩
  · simp only [OutputPort.connect, protocol.Connect, hcompat, ↓reduceIte]
  · by_cases h : port ∈ s.wiring._connections self <;>
      simp [OutputPort.connect, protocol.Connect, hcompat, h]
  · by_cases h : self ∈ s.wiring.connectedOutputs port <;>
      simp [OutputPort.connect, protocol.Connect, hcompat, InputPort.isConnectedTo, h]
  · intro h
    simp [OutputPort.connect, protocol.Connect, hcompat, h]
  · intro h
    simp [OutputPort.connect, protocol.Connect, hcompat, h]
  · intro h
    simp [OutputPort.connect, protocol.Connect, hcompat, h]
  · intro h
    simp [OutputPort.connect, protocol.Connect, hcompat, h]

/-- C13 on `fanOut`, every pair compatible: output port `0` is connected to
input port `3`, which it did not list. -/
theorem connect_registers_both_witness :
    OutputPort.isCompatible (fun _ _ => true) 0 3 = true ∧
    ∃ s1,
      OutputPort.connect (protocol.Connect (OutputPort.isCompatible (fun _ _ => true)))
        { wiring := fanOut, calls := [] } 0 3 = (1, s1) ∧
      3 ∈ s1.wiring._connections 0 ∧
      InputPort.isConnectedTo s1.wiring 3 0 = true ∧
      (3 ∉ fanOut._connections 0 →
        (s1.wiring._connections 0).length = (fanOut._connections 0).length + 1) ∧
      (0 ∉ fanOut.connectedOutputs 3 →
        (s1.wiring.connectedOutputs 3).length = (fanOut.connectedOutputs 3).length + 1) ∧
      (3 ∈ fanOut._connections 0 → s1.wiring._connections 0 = fanOut._connections 0) ∧
      (0 ∈ fanOut.connectedOutputs 3 →
        s1.wiring.connectedOutputs 3 = fanOut.connectedOutputs 3) :=
  ⟨rfl, connect_registers_both (fun _ _ => true) { wiring := fanOut, calls := [] } 0 3 rfl⟩

/-- C19.  When the output port lists `port` as its last connection but `port`
does not report being connected to it, `disconnect` on the pair returns `0`
and hands back the state it was given, and `disconnectAll` never returns:
whatever the iteration bound, its loop is still running in the unchanged
state. -/
theorem disconnectAll_stuck (Disconnect : ProtocolFn) (s : PortState) (self : OutputPort)
    (port : InputPort)
    (hlast : (s.wiring._connections self).getLast? = some port)
    (hnot : InputPort.isConnectedTo s.wiring port self = false) :
    OutputPort.disconnect Disconnect s self port = (0, s) ∧
    ∀ fuel, OutputPort.disconnectAll Disconnect s self fuel = .outOfFuel s :=
  disconnectAll_blocked Disconnect s self port hlast hnot

/-- C19 on `oneSided`: output port `0` lists input port `1`, which lists
nothing. -/
theorem disconnectAll_stuck_witness :
    (oneSided._connections 0).getLast? = some 1 ∧
    InputPort.isConnectedTo oneSided 1 0 = false ∧
    OutputPort.disconnect protocol.Disconnect { wiring := oneSided, calls := [] } 0 1 =
      (0, { wiring := oneSided, calls := [] }) ∧
    ∀ fuel, OutputPort.disconnectAll protocol.Disconnect { wiring := oneSided, calls := [] }
      0 fuel = .outOfFuel { wiring := oneSided, calls := [] } :=
  ⟨rfl, by decide,
   disconnectAll_stuck protocol.Disconnect { wiring := oneSided, calls := [] } 0 1 rfl
     (by decide)⟩

end kiwi.core

namespace kiwi.processing

/-! Theorems on the loop of the update scheduler: which nodes it updates,
when it ends, its index and its result. -/

/-- An iteration entered with the index inside `toUpdate` reads the node at
the index and either moves on (the node is its own predecessor) or updates
it and drops the last element; the index is then wrapped to `0` when it is
not below the size. -/
theorem iteration_in_bounds (p : Pipeline) (s : UpdaterState) (hi : s.i < s.toUpdate.length) :
    ∃ n s1, s.toUpdate[s.i]? = some n ∧ iteration p s = some s1 ∧
      (s1.toUpdate.length > 0 → s1.i < s1.toUpdate.length) ∧
      ((n ∈ p.previousNodes n ∧ s1.toUpdate = s.toUpdate ∧ s1.updated = s.updated) ∨
       (n ∉ p.previousNodes n ∧ s1.toUpdate = s.toUpdate.dropLast ∧
         s1.updated = s.updated ++ [n])) := by
  have hget : s.toUpdate[s.i]? = some s.toUpdate[s.i] := List.getElem?_eq_getElem hi
  generalize s.toUpdate[s.i] = n at hget
  cases hf : foundDependency n (p.previousNodes n) with
  | true =>
    have hmem : n ∈ p.previousNodes n := (foundDependency_iff n _).1 hf
    by_cases hw : s.i + 1 ≥ s.toUpdate.length
    · refine ⟨n, { toUpdate := s.toUpdate, i := 0, updated := s.updated }, hget, ?_, ?_, ?_⟩
      · simp [iteration, hget, hf, hw]
      · intro h
        exact h
      · exact Or.inl ⟨hmem, rfl, rfl⟩
    · refine ⟨n, { toUpdate := s.toUpdate, i := s.i + 1, updated := s.updated }, hget,
        ?_, ?_, ?_⟩
      · simp [iteration, hget, hf, hw]
      · intro _
        exact Nat.lt_of_not_le hw
      · exact Or.inl ⟨hmem, rfl, rfl⟩
  | false =>
    have hmem : n ∉ p.previousNodes n := by
      intro h
      rw [(foundDependency_iff n _).2 h] at hf
      exact Bool.noConfusion hf
    by_cases hw : s.i ≥ s.toUpdate.dropLast.length
    · refine ⟨n, { toUpdate := s.toUpdate.dropLast, i := 0, updated := s.updated ++ [n] },
        hget, ?_, ?_, ?_⟩
      · simp only [iteration, hget, hf, Bool.not_false, ↓reduceIte, hw]
      · intro h
        exact h
      · exact Or.inr ⟨hmem, rfl, rfl⟩
    · refine ⟨n, { toUpdate := s.toUpdate.dropLast, i := s.i, updated := s.updated ++ [n] },
        hget, ?_, ?_, ?_⟩
      · simp only [iteration, hget, hf, Bool.not_false, ↓reduceIte, hw]
      · intro _
        exact Nat.lt_of_not_le hw
      · exact Or.inr ⟨hmem, rfl, rfl⟩

/-- Every state at which the loop condition is tested has its index inside
`toUpdate`, unless `toUpdate` is empty. -/
theorem reachable_index (p : Pipeline) (s : UpdaterState) (hr : Reachable p s) :
    s.toUpdate.length > 0 → s.i < s.toUpdate.length := by
  induction hr with
  | init =>
    intro h
    exact h
  | step s s1 _ hloop hit ih =>
    obtain ⟨n, s2, _, hit2, hinv, _⟩ := iteration_in_bounds p s (ih hloop)
    rw [hit] at hit2
    rw [Option.some.inj hit2]
    exact hinv

/-- From a state whose index is inside `toUpdate`, the loop never reads
outside it, however many iterations it runs. -/
theorem updateLoop_in_bounds (p : Pipeline) :
    ∀ (fuel : Nat) (s : UpdaterState), (s.toUpdate.length > 0 → s.i < s.toUpdate.length) →
      ∀ s1, updateLoop p fuel s ≠ .outOfBounds s1 := by
  intro fuel
  induction fuel with
  | zero =>
    intro s _ s1
    unfold updateLoop
    split <;> simp
  | succ fuel ih =>
    intro s hs s1
    unfold updateLoop
    split
    · rename_i hloop
      obtain ⟨n, s2, _, hit, hinv, _⟩ := iteration_in_bounds p s (hs hloop)
      simp only [hit]
      exact ih s2 hinv s1
    · simp

/-- While the node at the head of `toUpdate` is its own predecessor, the loop
is never left: the head is never updated, so it is never dropped. -/
theorem updateLoop_head_blocked (p : Pipeline) (a : Node) (ha : a ∈ p.previousNodes a) :
    ∀ (fuel : Nat) (s : UpdaterState), s.toUpdate.head? = some a →
      s.i < s.toUpdate.length → ∃ s1, updateLoop p fuel s = .outOfFuel s1 := by
  intro fuel
  induction fuel with
  | zero =>
    intro s _ hi
    refine ⟨s, ?_⟩
    have hpos : s.toUpdate.length > 0 := Nat.lt_of_le_of_lt (Nat.zero_le _) hi
    simp [updateLoop, hpos]
  | succ fuel ih =>
    intro s hhead hi
    have hpos : s.toUpdate.length > 0 := Nat.lt_of_le_of_lt (Nat.zero_le _) hi
    obtain ⟨n, s2, hget, hit, hinv, hcase⟩ := iteration_in_bounds p s hi
    have hhead2 : s2.toUpdate.head? = some a := by
      rcases hcase with ⟨_, htu, _⟩ | ⟨hn, htu, _⟩
      · rw [htu]
        exact hhead
      · rw [htu]
        cases hl : s.toUpdate with
        | nil => simp [hl] at hhead
        | cons b t =>
          have hb : b = a := by
            simpa [hl] using hhead
          cases t with
          | nil =>
            have hi0 : s.i = 0 := by
              simp [hl] at hi
              exact hi
            rw [hl, hi0] at hget
            simp at hget
            rw [← hget, hb] at hn
            exact absurd ha hn
          | cons c t1 => simp [hb]
    have hpos2 : s2.toUpdate.length > 0 := by
      cases hl : s2.toUpdate with
      | nil => simp [hl] at hhead2
      | cons b t => simp
    obtain ⟨s3, hrun⟩ := ih s2 hhead2 (hinv hpos2)
    refine ⟨s3, ?_⟩
    rw [updateLoop]
    simp only [hpos, ↓reduceIte, hit]
    exact hrun

/-- C15.  On a pipeline of `N >= 1` nodes whose first node is not a member of
its own `previousNodes()`, one run of `update` returns after `N` iterations
and makes exactly `N` calls of `Node::update`, all on the first node: an
iteration at index `0` leaves slot `0` as it is, drops the last element and
keeps the index at `0`. -/
theorem update_first_node_only (p : Pipeline) (flags : Nat) (a : Node) (rest : List Node)
    (hp : p.nodes = a :: rest) (ha : a ∉ p.previousNodes a) (k : Nat) :
    update p flags (p.nodes.length + k) =
      .returned (false, List.replicate p.nodes.length a) ∧
    (callsMade (update p flags (p.nodes.length + k))).length = p.nodes.length ∧
    (∀ n ∈ callsMade (update p flags (p.nodes.length + k)), n = a) ∧
    (∀ t u, iteration p { toUpdate := a :: t, i := 0, updated := u } =
      some { toUpdate := (a :: t).dropLast, i := 0, updated := u ++ [a] }) := by
  have hrun := update_head_free p flags a rest hp ha k
  refine ⟨hrun, ?_, ?_, ?_⟩
  · rw [hrun]
    simp [callsMade]
  · rw [hrun]
    intro n hn
    exact List.eq_of_mem_replicate hn
  · intro t u
    exact iteration_head_free p a t u ha

/-- C15 on the pipeline `[A, B, C]` with edges `A -> B`, `B -> C`: three
calls, all on `A`. -/
theorem update_first_node_only_witness :
    chainABC.nodes = [0, 1, 2] ∧ 0 ∉ chainABC.previousNodes 0 ∧
    update chainABC 0 (chainABC.nodes.length + 0) =
      .returned (false, List.replicate chainABC.nodes.length 0) ∧
    (callsMade (update chainABC 0 (chainABC.nodes.length + 0))).length =
      chainABC.nodes.length ∧
    (∀ n ∈ callsMade (update chainABC 0 (chainABC.nodes.length + 0)), n = 0) ∧
    (∀ t u, iteration chainABC { toUpdate := 0 :: t, i := 0, updated := u } =
      some { toUpdate := (0 :: t).dropLast, i := 0, updated := u ++ [0] }) :=
  ⟨rfl, by simp [chainABC],
   update_first_node_only chainABC 0 0 [1, 2] rfl (by simp [chainABC]) 0⟩

/-- C16.  `update` returns, for some number of iterations, if and only if the
pipeline is empty or its first node is not a member of its own
`previousNodes()`.  A node is found blocked exactly when it is a member of
its own `previousNodes()`; and when the first node is, the loop is still
running after any number of iterations. -/
theorem update_terminates_iff (p : Pipeline) (flags : Nat) :
    ((∃ fuel r, update p flags fuel = .returned r) ↔
      (p.nodes = [] ∨ ∃ a rest, p.nodes = a :: rest ∧ a ∉ p.previousNodes a)) ∧
    (∀ n, foundDependency n (p.previousNodes n) = true ↔ n ∈ p.previousNodes n) ∧
    (∀ a rest, p.nodes = a :: rest → a ∈ p.previousNodes a →
      ∀ fuel, ∃ s, update p flags fuel = .outOfFuel s) := by
  have hblocked : ∀ a rest, p.nodes = a :: rest → a ∈ p.previousNodes a →
      ∀ fuel, ∃ s, update p flags fuel = .outOfFuel s := by
    intro a rest hp ha fuel
    obtain ⟨s1, hrun⟩ := updateLoop_head_blocked p a ha fuel
      { toUpdate := p.nodes, i := 0, updated := [] } (by simp [hp]) (by simp [hp])
    exact ⟨s1, by simp [update, hrun]⟩
  refine ⟨⟨?_, ?_⟩, fun n => foundDependency_iff n _, hblocked⟩
  · rintro ⟨fuel, r, hret⟩
    cases hn : p.nodes with
    | nil => exact Or.inl rfl
    | cons a rest =>
      refine Or.inr ⟨a, rest, rfl, ?_⟩
      intro ha
      obtain ⟨s, hs⟩ := hblocked a rest hn ha fuel
      rw [hs] at hret
      exact Outcome.noConfusion hret
  · rintro (hnil | ⟨a, rest, hp, ha⟩)
    · refine ⟨0, (false, []), ?_⟩
      simp [update, updateLoop, hnil]
    · exact ⟨p.nodes.length + 0, _, update_head_free p flags a rest hp ha 0⟩

/-- C16 on the pipeline of one node that is its own predecessor, where the
loop is still running after any number of iterations, and on the pipeline
`[A, X]`, whose first node is not its own predecessor, where the run returns. -/
theorem update_terminates_iff_witness :
    (selfLoop.nodes = [0] ∧ 0 ∈ selfLoop.previousNodes 0 ∧
      ∀ fuel, ∃ s, update selfLoop 0 fuel = .outOfFuel s) ∧
    (∃ fuel r, update freeThenSelf 0 fuel = .returned r) :=
  ⟨⟨rfl, by simp [selfLoop],
    (update_terminates_iff selfLoop 0).2.2 0 [] rfl (by simp [selfLoop])⟩,
   (update_terminates_iff freeThenSelf 0).1.2
     (Or.inr ⟨0, [1], rfl, by simp [freeThenSelf]⟩)⟩

/-- C17.  At every state at which the loop is entered the index is inside
`toUpdate`, so the read `toUpdate[i]` succeeds, and `toUpdate.size()-1` is
inside it too; no run of `update`, on any pipeline, reads out of bounds. -/
theorem update_index_in_bounds (p : Pipeline) :
    (∀ s, Reachable p s → s.toUpdate.length > 0 →
      s.i < s.toUpdate.length ∧ s.toUpdate.length - 1 < s.toUpdate.length ∧
      ∃ n s1, s.toUpdate[s.i]? = some n ∧ iteration p s = some s1) ∧
    (∀ flags fuel s, update p flags fuel ≠ .outOfBounds s) := by
  refine ⟨?_, ?_⟩
  · intro s hr hloop
    have hi := reachable_index p s hr hloop
    obtain ⟨n, s1, hget, hit, _, _⟩ := iteration_in_bounds p s hi
    exact ⟨hi, Nat.sub_lt hloop Nat.one_pos, n, s1, hget, hit⟩
  · intro flags fuel s hres
    have hnb := updateLoop_in_bounds p fuel { toUpdate := p.nodes, i := 0, updated := [] }
      (fun h => h)
    unfold update at hres
    cases hl : updateLoop p fuel { toUpdate := p.nodes, i := 0, updated := [] } with
    | returned s1 => simp [hl] at hres
    | outOfFuel s1 => simp [hl] at hres
    | outOfBounds s1 => exact hnb s1 hl
    | failed s1 => simp [hl] at hres

/-- C17 at the state reached after one iteration on the pipeline `[A, B, C]`. -/
theorem update_index_in_bounds_witness :
    Reachable chainABC { toUpdate := [0, 1], i := 0, updated := [0] } ∧
    (0 < 2 ∧ 2 - 1 < 2 ∧
      ∃ n s1, ([0, 1] : List Node)[0]? = some n ∧
        iteration chainABC { toUpdate := [0, 1], i := 0, updated := [0] } = some s1) :=
  have hr : Reachable chainABC { toUpdate := [0, 1], i := 0, updated := [0] } :=
    Reachable.step { toUpdate := [0, 1, 2], i := 0, updated := [] } _ Reachable.init
      (by decide) (iteration_head_free chainABC 0 [1, 2] [] (by simp [chainABC]))
  ⟨hr, (update_index_in_bounds chainABC).1 _ hr (by decide)⟩

/-- C18.  The result of `update` does not depend on `flags`, and a run that
returns returns `false`, whatever the pipeline. -/
theorem update_returns_false (p : Pipeline) (flags flags1 fuel : Nat) :
    update p flags fuel = update p flags1 fuel ∧
    (∀ r, update p flags fuel = .returned r → r.1 = false) := by
  refine ⟨rfl, ?_⟩
  intro r hr
  unfold update at hr
  cases hl : updateLoop p fuel { toUpdate := p.nodes, i := 0, updated := [] } <;>
    simp [hl] at hr
  rw [← hr]

/-- C18 on the empty pipeline, on the acyclic pipeline `[A, B]` and on the
cyclic pipeline `[X, Y]`: each run returns `false`. -/
theorem update_returns_false_witness :
    update { nodes := [], previousNodes := fun _ => [] } 5 0 = .returned (false, []) ∧
    update twoIndependent 5 2 = .returned (false, [0, 0]) ∧
    update mutualXY 5 2 = .returned (false, [0, 0]) ∧
    (false, ([0, 0] : List Node)).1 = false :=
  ⟨rfl, update_head_free twoIndependent 5 0 [1] rfl (by simp [twoIndependent]) 0,
   update_head_free mutualXY 5 0 [1] rfl (by simp [mutualXY]) 0,
   (update_returns_false mutualXY 5 5 2).2 (false, [0, 0])
     (update_head_free mutualXY 5 0 [1] rfl (by simp [mutualXY]) 0)⟩

end kiwi.processing
